import Mathlib

/-!
# Verification of the contexttune tuning engine

A shallow embedding of the core of the `contexttune` repository
(guidance schema, budget gating, hill-climbing tuner, resumable scorer,
agent-run driver, experiment orchestrator) together with proofs of the
specification's testable properties.

Conventions of the embedding:
* Python `float` scores and durations are modelled by `ℚ`; the claims
  proved here concern only the structural flow of these values, never
  rounding.
* The external collaborators (LLM proposer, agent, container daemon,
  harness) are passed in as function-typed oracles, matching the spec's
  "black-box scoring function" framing.
* File-system side effects are modelled as explicit traces of `FsOp`
  events, and the timeout path of the agent driver as a trace of
  `RunEvent` events, so that ordering claims become statements about
  lists.
-/

namespace ContextTune

/-! ## Guidance data model (src/context_policy/guidance/schema.py) -/

/-- Embeds the `RepoGuidance` dataclass: a bounded, line-oriented
guidance block.  `char_budget` is a Python `int`, hence `Int` here. -/
structure RepoGuidance where
  repo : String
  commit : String
  lines : List String
  version : Nat
  charBudget : Int
  deriving Repr, DecidableEq

/-- `RepoGuidance.render`: join lines with newline. -/
def RepoGuidance.render (g : RepoGuidance) : String :=
  String.intercalate "\n" g.lines

/-- `RepoGuidance.char_count`. -/
def RepoGuidance.char_count (g : RepoGuidance) : Nat :=
  g.render.length

/-- `RepoGuidance.is_within_budget`. -/
def RepoGuidance.is_within_budget (g : RepoGuidance) : Bool :=
  (g.char_count : Int) ≤ g.charBudget

/-- `RepoGuidance.copy(version=..., lines=...)`: shallow copy with
optional replacement of `version` and `lines` (a `none` argument keeps
the existing field, mirroring the Python default of `None`). -/
def RepoGuidance.copy (g : RepoGuidance) (version : Option Nat)
    (lines : Option (List String)) : RepoGuidance :=
  { repo := g.repo
    commit := g.commit
    lines := lines.getD g.lines
    version := version.getD g.version
    charBudget := g.charBudget }

/-! ## Budget gating (src/context_policy/guidance/gating.py) -/

/-- The `while lines and len("\n".join(lines)) > budget: lines.pop()`
loop of `truncate_to_budget`, popping whole lines from the end. -/
def truncLines (budget : Int) (lines : List String) : List String :=
  if h : lines = [] then lines
  else if ((String.intercalate "\n" lines).length : Int) > budget then
    truncLines budget lines.dropLast
  else lines
termination_by lines.length
decreasing_by
  have hl : lines.length ≠ 0 := fun hz => h (List.length_eq_zero.mp hz)
  simp only [List.length_dropLast]
  omega

/-- `truncate_to_budget`: return the guidance unchanged when it is
within budget, else a copy whose lines were popped from the end until
the render fits. -/
def truncate_to_budget (g : RepoGuidance) : RepoGuidance :=
  if g.is_within_budget then g
  else g.copy none (some (truncLines g.charBudget g.lines))

/-! ## Prompt composition (src/context_policy/runner/mini_swe_agent.py) -/

/-- `CONTEXT_BLOCK_START` sentinel. -/
def CONTEXT_BLOCK_START : String := "# REPO GUIDANCE (AUTO-TUNED)"

/-- `CONTEXT_BLOCK_END` sentinel. -/
def CONTEXT_BLOCK_END : String := "# END REPO GUIDANCE"

/-- `build_task_with_context(problem_statement, context_md)`.  The
Python guard `if not context_md` is truthiness: both `None` and the
empty string pass the problem through unchanged. -/
def build_task_with_context (problem : String) (contextMd : Option String) : String :=
  match contextMd with
  | none => problem
  | some c =>
    if c = "" then problem
    else CONTEXT_BLOCK_START ++ "\n" ++ c ++ "\n" ++ CONTEXT_BLOCK_END ++ "\n\n" ++ problem

/-! ## Agent-run driver timeout path
(src/context_policy/runner/mini_swe_agent_swebench.py,
`generate_patch_with_mini_swebench`) -/

/-- The observable steps of the driver's wall-clock timeout branch. -/
inductive RunEvent where
  | terminateChild
  | waitChild
  | killChild
  | probeContainers
  | stopContainers
  | returnContainerPatch
  | salvageFallback
  deriving Repr, DecidableEq

/-- Event trace of the `if proc.is_alive():` timeout branch of
`generate_patch_with_mini_swebench`: terminate the child, join briefly,
kill it when still alive, run `_extract_diff_from_containers`, then
`_stop_orphan_containers`, then either return the container patch or
fall back to `_salvage_patch`.  `stillAlive` abstracts whether the
child survived `terminate`; `probeUsable` abstracts whether the probe
returned a non-empty patch within the size limit. -/
def timeoutPathEvents (stillAlive : Bool) (probeUsable : Bool) : List RunEvent :=
  [RunEvent.terminateChild, RunEvent.waitChild] ++
    (if stillAlive then [RunEvent.killChild] else []) ++
    [RunEvent.probeContainers, RunEvent.stopContainers] ++
    (if probeUsable then [RunEvent.returnContainerPatch] else [RunEvent.salvageFallback])

/-! ## Persistence traces
(src/context_policy/guidance/tuner.py `TuningState.save`,
src/context_policy/loop/orchestrator.py `ExperimentState.save`) -/

/-- File-system effects a save routine may perform. -/
inductive FsOp where
  | mkdirParents (dir : String)
  | writeFile (path : String) (content : String)
  | writeTempFile (path : String) (content : String)
  | fsyncFile (path : String)
  | renameFile (src : String) (dst : String)
  deriving Repr, DecidableEq

/-- `path.parent` for a `/`-separated path string. -/
def parentDir (path : String) : String :=
  String.intercalate "/" (path.splitOn "/").dropLast

/-- Effect trace of `TuningState.save(path)`:
`path.parent.mkdir(parents=True, exist_ok=True)` followed by
`path.write_text(json.dumps(self.to_dict(), indent=2) + "\n")`.
`serialized` stands for the `json.dumps` output. -/
def TuningState.saveOps (path : String) (serialized : String) : List FsOp :=
  [FsOp.mkdirParents (parentDir path), FsOp.writeFile path (serialized ++ "\n")]

/-- Effect trace of `ExperimentState.save(path)`: identical shape —
mkdir of the parent, then one direct `write_text` of the serialized
state to the target path. -/
def ExperimentState.saveOps (path : String) (serialized : String) : List FsOp :=
  [FsOp.mkdirParents (parentDir path), FsOp.writeFile path (serialized ++ "\n")]

/-- Modelled from the spec: the write-temp / fsync / rename pattern the
spec asserts for every persistent-state update ("every update is
atomic — write temp file, fsync, rename").  Used as the claim side of a
refinement comparison against the traces above. -/
def specAtomicReplace (ops : List FsOp) (target : String) : Prop :=
  ∃ tmp content,
    FsOp.writeTempFile tmp content ∈ ops ∧
    FsOp.fsyncFile tmp ∈ ops ∧
    FsOp.renameFile tmp target ∈ ops

/-- `op` is a write of file contents. -/
def FsOp.isWrite : FsOp → Bool
  | FsOp.writeFile _ _ => true
  | FsOp.writeTempFile _ _ => true
  | _ => false

/-- `op` is a rename. -/
def FsOp.isRename : FsOp → Bool
  | FsOp.renameFile _ _ => true
  | _ => false

/-- `op` is an fsync. -/
def FsOp.isFsync : FsOp → Bool
  | FsOp.fsyncFile _ => true
  | _ => false

/-! ## Hill-climbing tuner (src/context_policy/guidance/tuner.py) -/

/-- The `type` field of a history event: `"init"` or `"candidate"`. -/
inductive EventKind where
  | init
  | candidate
  deriving Repr, DecidableEq

/-- One entry of `TuningState.history` (the dict appended by
`run_tuning_loop`; the metric fields not needed by the invariants are
omitted, `iteration`/`candidate_index` are only present on candidate
events). -/
structure HistEvent where
  version : Nat
  score : ℚ
  kind : EventKind
  iteration : Option Nat
  candidateIndex : Option Nat
  deriving Repr, DecidableEq

/-- The `TuningState` dataclass (persistence fields only). -/
structure TuningState where
  repo : String
  bestVersion : Nat
  bestScore : ℚ
  history : List HistEvent
  completedIterations : Nat
  deriving Repr, DecidableEq

/-- State after the fresh-start initialization of `run_tuning_loop`:
G₀ has version 0, `best_score` is G₀'s score, and the history holds
exactly the one `init` event. -/
def mkInitState (repo : String) (g0Score : ℚ) : TuningState :=
  { repo := repo
    bestVersion := 0
    bestScore := g0Score
    history := [⟨0, g0Score, EventKind.init, none, none⟩]
    completedIterations := 0 }

/-- Body of `for ci, candidate in enumerate(candidates)` in
`run_tuning_loop`: assign `candidate_version = best.version + ci + 1`
(the incumbent guidance's version and `state.best_version` always
coincide), append the candidate event, then adopt the candidate if and
only if `c_score > best_score` strictly. -/
def stepCandidate (s : TuningState) (t ci : Nat) (cScore : ℚ) : TuningState :=
  let v := s.bestVersion + ci + 1
  let s1 : TuningState :=
    { s with history := s.history ++ [⟨v, cScore, EventKind.candidate, some t, some ci⟩] }
  if cScore > s.bestScore then
    { s1 with bestVersion := v, bestScore := cScore }
  else s1

/-- One iteration `t` of the hill-climbing loop.  `cands` is the list
of candidate scores the proposer/scorer environment produces for this
iteration (in proposer order).  An empty proposal list records the
iteration as completed with no changes; otherwise every candidate is
processed in order and the iteration is checkpointed. -/
def runIteration (s : TuningState) (t : Nat) (cands : List ℚ) : TuningState :=
  match cands with
  | [] => { s with completedIterations := t }
  | _ =>
    let s1 := cands.enum.foldl (fun acc p => stepCandidate acc t p.1 p.2) s
    { s1 with completedIterations := t }

/-- `run_tuning_loop` on the fresh-start path, with the external scorer and
proposer abstracted into `proposals : iteration → candidate scores`:
initialize and score G₀, then run iterations `1..iterations`. -/
def run_tuning_loop (repo : String) (g0Score : ℚ) (iterations : Nat)
    (proposals : Nat → List ℚ) : TuningState :=
  (List.range' 1 iterations).foldl (fun s t => runIteration s t (proposals t))
    (mkInitState repo g0Score)

/-- The `version` values of a state's history, in append order. -/
def histVersions (s : TuningState) : List Nat :=
  s.history.map HistEvent.version

/-! ## Resumable scorer (src/context_policy/guidance/score.py) -/

/-- Result of one agent run as consumed by the scorer
(`generate_patch_with_mini_swebench_result`): patch text, elapsed
seconds, token counters. -/
structure AgentOutcome where
  patch : String
  elapsedS : ℚ
  promptTokens : Nat
  completionTokens : Nat
  totalTokens : Nat
  deriving Repr, DecidableEq

/-- One record of the append-only `preds.jsonl` log. -/
structure PredRecord where
  instanceId : String
  modelNameOrPath : String
  modelPatch : String
  deriving Repr, DecidableEq

/-- One record of the append-only `instance_metrics.jsonl` log. -/
structure MetricsRecord where
  instanceId : String
  elapsedS : ℚ
  patchNonEmpty : Bool
  promptTokens : Nat
  completionTokens : Nat
  totalTokens : Nat
  deriving Repr, DecidableEq

/-- The two on-disk logs of a scorer keyed by `(repo, version)`. -/
structure ScoreLogs where
  preds : List PredRecord
  metrics : List MetricsRecord
  deriving Repr, DecidableEq

/-- The logs of a fresh scorer directory. -/
def emptyLogs : ScoreLogs := ⟨[], []⟩

/-- Whether `instance_id` appears in the predictions log — the
`iid in completed` test, where `completed` is the dict read from
`preds.jsonl` on entry. -/
def predsHas (logs : ScoreLogs) (iid : String) : Bool :=
  logs.preds.any (fun r => r.instanceId = iid)

/-- `completed[iid]`: the stored patch for a completed instance
(last record wins, as when loading a JSONL into a dict). -/
def completedPatch (logs : ScoreLogs) (iid : String) : Option String :=
  (logs.preds.reverse.find? (fun r => r.instanceId = iid)).map PredRecord.modelPatch

/-- `completed_metrics.get(iid)`: the stored metrics record for a
completed instance (last record wins). -/
def completedMetrics (logs : ScoreLogs) (iid : String) : Option MetricsRecord :=
  logs.metrics.reverse.find? (fun r => r.instanceId = iid)

/-- The predictions record appended for a freshly executed task. -/
def mkPredRecord (model : String) (agent : String → AgentOutcome)
    (iid : String) : PredRecord :=
  ⟨iid, model, (agent iid).patch⟩

/-- The metrics record appended for a freshly executed task
(`patch_non_empty = bool(patch and patch.strip())`). -/
def mkMetricsRecord (agent : String → AgentOutcome) (iid : String) : MetricsRecord :=
  let out := agent iid
  ⟨iid, out.elapsedS, !(out.patch.trim = ""), out.promptTokens,
    out.completionTokens, out.totalTokens⟩

/-- Body of the task loop of `score_candidate_detailed`, restricted to
its effect on the two logs: a task whose `instance_id` is already in
the entry-time predictions snapshot `logs0` is skipped (its stored
patch and metrics are reused without touching the logs); otherwise the
agent runs and the prediction record and metrics record are both
appended before the next task is considered.  `agent` abstracts the
deterministic agent/container environment. -/
def scoreStep (model : String) (agent : String → AgentOutcome) (logs0 : ScoreLogs)
    (logs : ScoreLogs) (iid : String) : ScoreLogs :=
  if predsHas logs0 iid then logs
  else
    { preds := logs.preds ++ [mkPredRecord model agent iid]
      metrics := logs.metrics ++ [mkMetricsRecord agent iid] }

/-- The full task loop of `score_candidate_detailed` over the instance
ids of the task file, as its effect on the on-disk logs.  The entry
snapshot and the accumulating logs both start at `logs0`, because the
`completed` dict is read once on entry and never updated during the
run. -/
def score_run (model : String) (agent : String → AgentOutcome)
    (logs0 : ScoreLogs) (iids : List String) : ScoreLogs :=
  iids.foldl (scoreStep model agent logs0) logs0

/-! ### Aggregation and return shape of `score_candidate_detailed` -/

/-- The `ScoreResult` dataclass. -/
structure ScoreResult where
  rate : ℚ
  resolved : Nat
  total : Nat
  nonEmptyPatches : Nat
  totalElapsedS : ℚ
  promptTokens : Nat
  completionTokens : Nat
  totalTokens : Nat
  instanceMetricsPath : String
  deriving Repr, DecidableEq

/-- What `score_candidate_detailed` can return: Python lets the
`if not instances:` early exit return the bare float `0.0` while every
other path returns a `ScoreResult` object. -/
inductive ScoreReturn where
  | bareRate (x : ℚ)
  | result (r : ScoreResult)
  deriving Repr, DecidableEq

/-- Attribute access `c_result.rate` as performed by `run_tuning_loop`:
defined on a `ScoreResult`, an `AttributeError` (`none`) on the bare
float. -/
def getRate : ScoreReturn → Option ℚ
  | ScoreReturn.bareRate _ => none
  | ScoreReturn.result r => some r.rate

/-- The per-task data used for aggregation: the stored patch/metrics
for completed tasks (with the `0` defaults of the source for missing
metrics fields), the agent outcome for fresh tasks. -/
def taskOutcome (agent : String → AgentOutcome) (logs0 : ScoreLogs)
    (iid : String) : AgentOutcome :=
  if predsHas logs0 iid then
    let patch := (completedPatch logs0 iid).getD ""
    match completedMetrics logs0 iid with
    | some m => ⟨patch, m.elapsedS, m.promptTokens, m.completionTokens, m.totalTokens⟩
    | none => ⟨patch, 0, 0, 0, 0⟩
  else agent iid

/-- `score_candidate_detailed`, as the pair of its return value and the
final logs.  `evalFn` abstracts the evaluator predicate
`(instance, patch) → bool`; `metricsPath` is the reported
`instance_metrics_path`.  On an empty instance list the function
returns the bare float `0.0` (and the logs are untouched); otherwise
it runs the task loop and packages a `ScoreResult` whose `rate` is
`resolved / total`. -/
def score_candidate_detailed (model : String) (agent : String → AgentOutcome)
    (evalFn : String → String → Bool) (logs0 : ScoreLogs) (iids : List String)
    (metricsPath : String) : ScoreReturn × ScoreLogs :=
  if iids.isEmpty then (ScoreReturn.bareRate 0, logs0)
  else
    let logs1 := score_run model agent logs0 iids
    let outcomes := iids.map (fun iid => (iid, taskOutcome agent logs0 iid))
    let total := iids.length
    let resolved := (outcomes.filter (fun p => evalFn p.1 p.2.patch)).length
    let nonEmpty := (outcomes.filter (fun p => !(p.2.patch.trim = ""))).length
    let rate : ℚ := if total = 0 then 0 else (resolved : ℚ) / (total : ℚ)
    (ScoreReturn.result
      { rate := rate
        resolved := resolved
        total := total
        nonEmptyPatches := nonEmpty
        totalElapsedS := (outcomes.map (fun p => p.2.elapsedS)).sum
        promptTokens := (outcomes.map (fun p => p.2.promptTokens)).sum
        completionTokens := (outcomes.map (fun p => p.2.completionTokens)).sum
        totalTokens := (outcomes.map (fun p => p.2.totalTokens)).sum
        instanceMetricsPath := metricsPath },
      logs1)

/-! ## Default evaluator (src/context_policy/guidance/score.py
`_default_eval` / `_run_swebench_eval_single`) -/

/-- `_default_eval(instance, patch)`, with the harness invocation
(`_run_swebench_eval_single`, an external subprocess) abstracted as an
`Except`: `Except.error e` is a raised exception, `Except.ok b` a
normal boolean verdict.  The returned pair is
`(verdict, harness was invoked)`.  The guard mirrors
`if not patch or not patch.strip(): return False`, and the
`except Exception` handler maps every raised error to `False`. -/
def default_eval (patch : String) (harness : Except String Bool) : Bool × Bool :=
  if patch.trim = "" then (false, false)
  else
    match harness with
    | Except.ok b => (b, true)
    | Except.error _ => (false, true)

/-! ## Experiment summary (src/context_policy/loop/orchestrator.py
`run_experiment`, src/context_policy/report/summarize.py) -/

/-- `compute_rate(resolved, total)`: `resolved / total` when
`total > 0`, else `0.0`. -/
def compute_rate (resolved total : Nat) : ℚ :=
  if 0 < total then (resolved : ℚ) / (total : ℚ) else 0

/-- The successful branch of `eval_results[condition]`, restricted to
the fields the summary consumes. -/
structure CondEval where
  resolved : Nat
  total : Nat
  rate : ℚ
  deriving Repr, DecidableEq

/-- How `run_experiment` records a condition whose harness results
loaded: `rate = compute_rate(resolved, total)`.  The failure branch of
the `try` stores an error object with no `rate` key, modelled as
`none` at the use sites. -/
def mkCondEval (resolved total : Nat) : CondEval :=
  ⟨resolved, total, compute_rate resolved total⟩

/-- The `summary["delta"]` block: present (as
`(absolute, no_context_rate, tuned_context_rate)`) exactly when both
conditions carry a `rate`, with `absolute = tc_rate - nc_rate`. -/
def summary_delta (nc tc : Option CondEval) : Option (ℚ × ℚ × ℚ) :=
  match nc, tc with
  | some n, some t => some (t.rate - n.rate, n.rate, t.rate)
  | _, _ => none

/-! ## Helper lemmas -/

/-- An invariant preserved by every step of a fold is preserved by the
whole fold. -/
theorem foldl_preserves {α : Type} {β : Type} {P : α → Prop} {f : α → β → α}
    (hf : ∀ a b, P a → P (f a b)) :
    ∀ (l : List β) (a : α), P a → P (l.foldl f a)
  | [], _, ha => ha
  | b :: l, a, ha => foldl_preserves hf l (f a b) (hf a b ha)

/-- `stepCandidate` preserves "the best score bounds every history
score and is attained by some history event". -/
theorem stepCandidate_bestIsMax (s : TuningState) (t ci : Nat) (c : ℚ)
    (h1 : ∀ e ∈ s.history, e.score ≤ s.bestScore)
    (h2 : ∃ e ∈ s.history, e.score = s.bestScore) :
    (∀ e ∈ (stepCandidate s t ci c).history,
        e.score ≤ (stepCandidate s t ci c).bestScore) ∧
    ∃ e ∈ (stepCandidate s t ci c).history,
        e.score = (stepCandidate s t ci c).bestScore := by
  unfold stepCandidate
  by_cases hc : c > s.bestScore
  · simp only [if_pos hc]
    constructor
    · intro e he
      rcases List.mem_append.mp he with ho | hn
      · exact le_of_lt (lt_of_le_of_lt (h1 e ho) hc)
      · rcases List.mem_singleton.mp hn with rfl
        exact le_refl _
    · exact ⟨_, List.mem_append.mpr (Or.inr (List.mem_singleton.mpr rfl)), rfl⟩
  · simp only [if_neg hc]
    constructor
    · intro e he
      rcases List.mem_append.mp he with ho | hn
      · exact h1 e ho
      · rcases List.mem_singleton.mp hn with rfl
        exact le_of_not_lt hc
    · rcases h2 with ⟨e, he, hes⟩
      exact ⟨e, List.mem_append.mpr (Or.inl he), hes⟩

/-- `runIteration` preserves the same invariant. -/
theorem runIteration_bestIsMax (s : TuningState) (t : Nat) (cands : List ℚ)
    (h1 : ∀ e ∈ s.history, e.score ≤ s.bestScore)
    (h2 : ∃ e ∈ s.history, e.score = s.bestScore) :
    (∀ e ∈ (runIteration s t cands).history,
        e.score ≤ (runIteration s t cands).bestScore) ∧
    ∃ e ∈ (runIteration s t cands).history,
        e.score = (runIteration s t cands).bestScore := by
  match cands with
  | [] => exact ⟨h1, h2⟩
  | c :: cs =>
    have hfold := foldl_preserves
      (P := fun st : TuningState =>
        (∀ e ∈ st.history, e.score ≤ st.bestScore) ∧
        ∃ e ∈ st.history, e.score = st.bestScore)
      (f := fun acc p => stepCandidate acc t p.1 p.2)
      (fun a b ha => stepCandidate_bestIsMax a t b.1 b.2 ha.1 ha.2)
      ((c :: cs).enum) s ⟨h1, h2⟩
    exact hfold

/-- The truncation loop only ever removes trailing lines: its result is
a prefix of its input. -/
theorem truncLines_prefix_of_input (budget : Int) (lines : List String) :
    truncLines budget lines <+: lines := by
  unfold truncLines
  split
  · exact List.prefix_rfl
  · split
    · exact (truncLines_prefix_of_input budget lines.dropLast).trans (List.dropLast_prefix lines)
    · exact List.prefix_rfl
termination_by lines.length
decreasing_by
  rename_i h _
  have hl : lines.length ≠ 0 := fun hz => h (List.length_eq_zero.mp hz)
  simp only [List.length_dropLast]
  omega

/-- The truncation loop stops only when everything was dropped or the
rendered text fits the budget. -/
theorem truncLines_fits (budget : Int) (lines : List String) :
    truncLines budget lines = [] ∨
    ((String.intercalate "\n" (truncLines budget lines)).length : Int) ≤ budget := by
  unfold truncLines
  split
  · left; assumption
  · split
    · exact truncLines_fits budget lines.dropLast
    · rename_i hfit
      right
      exact le_of_not_lt hfit
termination_by lines.length
decreasing_by
  rename_i h _
  have hl : lines.length ≠ 0 := fun hz => h (List.length_eq_zero.mp hz)
  simp only [List.length_dropLast]
  omega

/-- Log shape of the scorer's task loop, for any starting accumulator:
the predictions and metrics logs each grow by exactly one record, in
input order, for every task not already in the entry-time snapshot. -/
theorem scoreFold_log_spec (model : String) (agent : String → AgentOutcome)
    (logs0 : ScoreLogs) :
    ∀ (iids : List String) (logs : ScoreLogs),
      (iids.foldl (scoreStep model agent logs0) logs).preds
          = logs.preds ++ (iids.filter
              (fun i => !(predsHas logs0 i))).map (mkPredRecord model agent) ∧
      (iids.foldl (scoreStep model agent logs0) logs).metrics
          = logs.metrics ++ (iids.filter
              (fun i => !(predsHas logs0 i))).map (mkMetricsRecord agent) := by
  intro iids
  induction iids with
  | nil => intro logs; simp
  | cons i is ih =>
    intro logs
    by_cases hi : predsHas logs0 i
    · have hstep : scoreStep model agent logs0 logs i = logs := by
        simp [scoreStep, hi]
      simp only [List.foldl_cons, hstep, List.filter_cons, hi]
      simpa using ih logs
    · have hfe : predsHas logs0 i = false := by
        simpa using hi
      have hstep : scoreStep model agent logs0 logs i =
          { preds := logs.preds ++ [mkPredRecord model agent i]
            metrics := logs.metrics ++ [mkMetricsRecord agent i] } := by
        simp [scoreStep, hfe]
      rcases ih { preds := logs.preds ++ [mkPredRecord model agent i]
                  metrics := logs.metrics ++ [mkMetricsRecord agent i] } with ⟨hp, hm⟩
      constructor
      · simp only [List.foldl_cons, hstep, hp, List.filter_cons, hfe,
          Bool.not_false, List.map_cons, List.append_assoc, List.singleton_append,
          if_true]
      · simp only [List.foldl_cons, hstep, hm, List.filter_cons, hfe,
          Bool.not_false, List.map_cons, List.append_assoc, List.singleton_append,
          if_true]

/-- When every task is already present in the entry-time snapshot, the
task loop appends nothing at all. -/
theorem scoreFold_noop (model : String) (agent : String → AgentOutcome)
    (snapshot : ScoreLogs) :
    ∀ (iids : List String), (∀ i ∈ iids, predsHas snapshot i = true) →
      ∀ logs, iids.foldl (scoreStep model agent snapshot) logs = logs := by
  intro iids
  induction iids with
  | nil => intro _ logs; rfl
  | cons i is ih =>
    intro hall logs
    have hi : predsHas snapshot i = true := hall i (List.mem_cons_self i is)
    have hstep : scoreStep model agent snapshot logs i = logs := by
      simp [scoreStep, hi]
    simp only [List.foldl_cons, hstep]
    exact ih (fun j hj => hall j (List.mem_cons_of_mem i hj)) logs

/-- After one scorer run, every input task id appears in the
predictions log. -/
theorem score_run_covers (model : String) (agent : String → AgentOutcome)
    (logs0 : ScoreLogs) (iids : List String) :
    ∀ i ∈ iids, predsHas (score_run model agent logs0 iids) i = true := by
  intro i hi
  rcases scoreFold_log_spec model agent logs0 iids logs0 with ⟨hp, _⟩
  unfold score_run
  rw [predsHas, hp, List.any_append]
  by_cases h0 : predsHas logs0 i
  · rw [predsHas] at h0
    simp [h0]
  · have hfe : predsHas logs0 i = false := by simpa using h0
    have hmem : mkPredRecord model agent i ∈
        (iids.filter (fun j => !(predsHas logs0 j))).map (mkPredRecord model agent) :=
      List.mem_map_of_mem _ (List.mem_filter.mpr ⟨hi, by simp [hfe]⟩)
    have : ((iids.filter (fun j => !(predsHas logs0 j))).map
        (mkPredRecord model agent)).any (fun r => r.instanceId = i) = true := by
      rw [List.any_eq_true]
      exact ⟨mkPredRecord model agent i, hmem, by simp [mkPredRecord]⟩
    simp [this]

/-! ## Theorems -/

/-- C1: in the tuning history, `version` values are claimed strictly
increasing and pairwise distinct even across consecutive iterations in
which no candidate was adopted.  Evaluating `run_tuning_loop` with
`iterations = 2`, one candidate per iteration and all scores `0`
(so no candidate ever improves on G₀'s score `0`) produces history
versions `[0, 1, 1]`: both iterations assign
`best.version + ci + 1 = 1`, so the versions are neither strictly
increasing nor distinct, contradicting the claim (and the source's own
"Assign unique version numbers" comment). -/
theorem run_tuning_loop_version_collision :
    histVersions (run_tuning_loop "owner/name" 0 2 (fun _ => [0])) = [0, 1, 1] ∧
    ¬ List.Pairwise (· < ·)
        (histVersions (run_tuning_loop "owner/name" 0 2 (fun _ => [0]))) ∧
    ¬ List.Pairwise (· ≠ ·)
        (histVersions (run_tuning_loop "owner/name" 0 2 (fun _ => [0]))) := by
  refine ⟨by decide, by decide, by decide⟩

/-- C2 counterexample: the claim asserts that `TuningState.save` and
`ExperimentState.save` follow the atomic write-temp / fsync / rename
pattern.  At the concrete target `out/tuning_state.json` (resp.
`out/experiment_state.json`) with serialized text `"s"`, neither save
trace contains any of the pattern's operations, refuting the claim. -/
theorem state_save_not_atomic :
    ¬ specAtomicReplace (TuningState.saveOps "out/tuning_state.json" "s")
        "out/tuning_state.json" ∧
    ¬ specAtomicReplace (ExperimentState.saveOps "out/experiment_state.json" "s")
        "out/experiment_state.json" := by
  constructor
  · rintro ⟨tmp, content, hw, -, -⟩
    simp [TuningState.saveOps] at hw
  · rintro ⟨tmp, content, hw, -, -⟩
    simp [ExperimentState.saveOps] at hw

/-- C2 amended: every update of the persistent `TuningState` and
`ExperimentState` is a plain in-place write — create the parent
directory, then write the serialized JSON directly to the target path.
The only write in either trace targets the final path (no temporary
file), and no rename and no fsync occurs anywhere in either trace, so
no write-temp-then-rename atomicity is provided. -/
theorem state_save_plain_write (path serialized : String) :
    (TuningState.saveOps path serialized).filter FsOp.isWrite
        = [FsOp.writeFile path (serialized ++ "\n")] ∧
    (ExperimentState.saveOps path serialized).filter FsOp.isWrite
        = [FsOp.writeFile path (serialized ++ "\n")] ∧
    (∀ op ∈ TuningState.saveOps path serialized,
        FsOp.isRename op = false ∧ FsOp.isFsync op = false) ∧
    (∀ op ∈ ExperimentState.saveOps path serialized,
        FsOp.isRename op = false ∧ FsOp.isFsync op = false) := by
  refine ⟨rfl, rfl, ?_, ?_⟩ <;>
  · intro op hop
    simp only [TuningState.saveOps, ExperimentState.saveOps, List.mem_cons,
      List.not_mem_nil, or_false] at hop
    rcases hop with rfl | rfl <;> exact ⟨rfl, rfl⟩

/-- C2 amended, witness at a concrete path and payload. -/
theorem state_save_plain_write_witness :
    FsOp.mkdirParents (parentDir "out/tuning_state.json")
        ∈ TuningState.saveOps "out/tuning_state.json" "s" ∧
    FsOp.isRename (FsOp.mkdirParents (parentDir "out/tuning_state.json")) = false ∧
    FsOp.isFsync (FsOp.mkdirParents (parentDir "out/tuning_state.json")) = false :=
  ⟨by simp [TuningState.saveOps],
    (state_save_plain_write "out/tuning_state.json" "s").2.2.1
      (FsOp.mkdirParents (parentDir "out/tuning_state.json"))
      (by simp [TuningState.saveOps])⟩

/-- C3: in every state produced by `run_tuning_loop`, `best_score`
equals the maximum `score` over the history (it bounds every event's
score and is attained by one), and the incumbent
(`best_version` / `best_score`) is replaced by a candidate exactly when
the candidate's score is strictly greater than the current
`best_score` — a candidate that only ties the incumbent changes
nothing but the appended history event. -/
theorem run_tuning_loop_monotone_best (repo : String) (g0Score : ℚ)
    (iterations : Nat) (proposals : Nat → List ℚ) :
    (∀ e ∈ (run_tuning_loop repo g0Score iterations proposals).history,
        e.score ≤ (run_tuning_loop repo g0Score iterations proposals).bestScore) ∧
    (∃ e ∈ (run_tuning_loop repo g0Score iterations proposals).history,
        e.score = (run_tuning_loop repo g0Score iterations proposals).bestScore) ∧
    (∀ (s : TuningState) (t ci : Nat) (c : ℚ), ¬ c > s.bestScore →
        (stepCandidate s t ci c).bestVersion = s.bestVersion ∧
        (stepCandidate s t ci c).bestScore = s.bestScore ∧
        (stepCandidate s t ci c).history = s.history ++
          [⟨s.bestVersion + ci + 1, c, EventKind.candidate, some t, some ci⟩]) ∧
    (∀ (s : TuningState) (t ci : Nat) (c : ℚ),
        (stepCandidate s t ci c).bestVersion ≠ s.bestVersion ∨
        (stepCandidate s t ci c).bestScore ≠ s.bestScore → c > s.bestScore) := by
  have hmain := foldl_preserves
    (P := fun st : TuningState =>
      (∀ e ∈ st.history, e.score ≤ st.bestScore) ∧
      ∃ e ∈ st.history, e.score = st.bestScore)
    (f := fun s t => runIteration s t (proposals t))
    (fun a b ha => runIteration_bestIsMax a b (proposals b) ha.1 ha.2)
    (List.range' 1 iterations) (mkInitState repo g0Score)
    ⟨by
        intro e he
        rcases List.mem_singleton.mp he with rfl
        exact le_refl _,
      ⟨_, List.mem_singleton.mpr rfl, rfl⟩⟩
  refine ⟨hmain.1, hmain.2, ?_, ?_⟩
  · intro s t ci c hc
    simp [stepCandidate, if_neg hc]
  · intro s t ci c hchange
    by_cases hc : c > s.bestScore
    · exact hc
    · simp only [stepCandidate, if_neg hc] at hchange
      rcases hchange with h | h <;> exact absurd rfl h

/-- C3 witness: a candidate whose score exactly ties the incumbent
(`score 1` against `best_score 1`) is not adopted — best version and
best score are unchanged and only the history event is appended. -/
theorem run_tuning_loop_monotone_best_witness :
    (¬ (1 : ℚ) > (mkInitState "owner/name" 1).bestScore) ∧
    ((stepCandidate (mkInitState "owner/name" 1) 1 0 1).bestVersion
        = (mkInitState "owner/name" 1).bestVersion ∧
      (stepCandidate (mkInitState "owner/name" 1) 1 0 1).bestScore
        = (mkInitState "owner/name" 1).bestScore ∧
      (stepCandidate (mkInitState "owner/name" 1) 1 0 1).history
        = (mkInitState "owner/name" 1).history ++
          [⟨(mkInitState "owner/name" 1).bestVersion + 0 + 1, 1,
            EventKind.candidate, some 1, some 0⟩]) :=
  ⟨by decide,
    (run_tuning_loop_monotone_best "owner/name" 1 0 (fun _ => [])).2.2.1
      (mkInitState "owner/name" 1) 1 0 1 (by decide)⟩

/-- C5: for every guidance with a non-negative budget (the data model
requires a positive one), `truncate_to_budget` keeps a prefix of the
original lines — only whole trailing lines are removed and no kept
line's text is altered, with the empty line list permitted — the
rendered length of the result fits the budget, and every other field
(`repo`, `commit`, `version`, `char_budget`) is preserved. -/
theorem truncate_to_budget_spec (g : RepoGuidance) (hb : 0 ≤ g.charBudget) :
    (truncate_to_budget g).lines <+: g.lines ∧
    ((truncate_to_budget g).char_count : Int) ≤ g.charBudget ∧
    (truncate_to_budget g).repo = g.repo ∧
    (truncate_to_budget g).commit = g.commit ∧
    (truncate_to_budget g).version = g.version ∧
    (truncate_to_budget g).charBudget = g.charBudget := by
  unfold truncate_to_budget
  by_cases hw : g.is_within_budget
  · rw [if_pos hw]
    refine ⟨List.prefix_rfl, ?_, rfl, rfl, rfl, rfl⟩
    have : (decide ((g.char_count : Int) ≤ g.charBudget)) = true := hw
    exact of_decide_eq_true this
  · rw [if_neg hw]
    refine ⟨truncLines_prefix_of_input g.charBudget g.lines, ?_, rfl, rfl, rfl, rfl⟩
    show ((String.intercalate "\n" (truncLines g.charBudget g.lines)).length : Int)
        ≤ g.charBudget
    rcases truncLines_fits g.charBudget g.lines with hnil | hfits
    · rw [hnil]
      simpa using hb
    · exact hfits

/-- C5 witness: with budget 3 and lines rendering to 9 characters,
every line is dropped and the (empty) result fits the budget. -/
theorem truncate_to_budget_spec_witness :
    (0 : Int) ≤ (3 : Int) ∧
    ((truncate_to_budget ⟨"owner/name", "abc123", ["aaaa", "bbbb"], 0, 3⟩).lines
        <+: ["aaaa", "bbbb"] ∧
      ((truncate_to_budget ⟨"owner/name", "abc123", ["aaaa", "bbbb"], 0, 3⟩).char_count : Int)
        ≤ (3 : Int) ∧
      (truncate_to_budget ⟨"owner/name", "abc123", ["aaaa", "bbbb"], 0, 3⟩).repo
        = "owner/name" ∧
      (truncate_to_budget ⟨"owner/name", "abc123", ["aaaa", "bbbb"], 0, 3⟩).commit
        = "abc123" ∧
      (truncate_to_budget ⟨"owner/name", "abc123", ["aaaa", "bbbb"], 0, 3⟩).version = 0 ∧
      (truncate_to_budget ⟨"owner/name", "abc123", ["aaaa", "bbbb"], 0, 3⟩).charBudget
        = 3) :=
  ⟨by decide, truncate_to_budget_spec ⟨"owner/name", "abc123", ["aaaa", "bbbb"], 0, 3⟩
    (by decide)⟩

/-- C4: a task already present in the predictions log is treated as
completed (the step leaves both logs untouched, its stored patch and
metrics being reused in memory); the remaining tasks are executed in
input order, each appending its prediction and metrics record before
the next task runs (the final logs are the initial logs plus exactly
one record per fresh task, in input order); and with a deterministic
agent a second invocation over the same task set appends nothing, so
the union of the two invocations' logs equals either log. -/
theorem score_run_at_most_once (model : String) (agent : String → AgentOutcome)
    (logs0 : ScoreLogs) (iids : List String) :
    (∀ logs iid, predsHas logs0 iid = true →
        scoreStep model agent logs0 logs iid = logs) ∧
    (score_run model agent logs0 iids).preds
        = logs0.preds ++ (iids.filter
            (fun i => !(predsHas logs0 i))).map (mkPredRecord model agent) ∧
    (score_run model agent logs0 iids).metrics
        = logs0.metrics ++ (iids.filter
            (fun i => !(predsHas logs0 i))).map (mkMetricsRecord agent) ∧
    score_run model agent (score_run model agent logs0 iids) iids
        = score_run model agent logs0 iids := by
  rcases scoreFold_log_spec model agent logs0 iids logs0 with ⟨hp, hm⟩
  refine ⟨?_, hp, hm, ?_⟩
  · intro logs iid hiid
    simp [scoreStep, hiid]
  · exact scoreFold_noop model agent (score_run model agent logs0 iids) iids
      (score_run_covers model agent logs0 iids) (score_run model agent logs0 iids)

/-- C4 witness: a concrete two-task run from empty logs, replayed; the
first invocation appends both records, the replay appends nothing. -/
theorem score_run_at_most_once_witness :
    predsHas (score_run "gpt" (fun i => ⟨"diff of " ++ i, 1, 2, 3, 5⟩)
        emptyLogs ["t1", "t2"]) "t1" = true ∧
    scoreStep "gpt" (fun i => ⟨"diff of " ++ i, 1, 2, 3, 5⟩)
        (score_run "gpt" (fun i => ⟨"diff of " ++ i, 1, 2, 3, 5⟩)
          emptyLogs ["t1", "t2"])
        (score_run "gpt" (fun i => ⟨"diff of " ++ i, 1, 2, 3, 5⟩)
          emptyLogs ["t1", "t2"]) "t1"
      = score_run "gpt" (fun i => ⟨"diff of " ++ i, 1, 2, 3, 5⟩)
          emptyLogs ["t1", "t2"] :=
  ⟨by decide,
    (score_run_at_most_once "gpt" (fun i => ⟨"diff of " ++ i, 1, 2, 3, 5⟩)
        (score_run "gpt" (fun i => ⟨"diff of " ++ i, 1, 2, 3, 5⟩)
          emptyLogs ["t1", "t2"]) ["t1", "t2"]).1
      (score_run "gpt" (fun i => ⟨"diff of " ++ i, 1, 2, 3, 5⟩)
        emptyLogs ["t1", "t2"]) "t1" (by decide)⟩

/-- C10: `score_candidate_detailed` returns the bare float `0.0`
whenever the loaded instance list is empty — so the attribute access
`c_result.rate` performed by `run_tuning_loop` fails (`getRate` is
`none`) on this edge case — and returns a `ScoreResult` (whose `rate`
attribute access succeeds) whenever the instance list is non-empty. -/
theorem score_candidate_detailed_return_shape (model : String)
    (agent : String → AgentOutcome) (evalFn : String → String → Bool)
    (logs0 : ScoreLogs) (iids : List String) (metricsPath : String) :
    ((score_candidate_detailed model agent evalFn logs0 [] metricsPath).1
        = ScoreReturn.bareRate 0) ∧
    (getRate (score_candidate_detailed model agent evalFn logs0 [] metricsPath).1
        = none) ∧
    (iids ≠ [] → ∃ r : ScoreResult,
        (score_candidate_detailed model agent evalFn logs0 iids metricsPath).1
            = ScoreReturn.result r ∧
        getRate (score_candidate_detailed model agent evalFn logs0 iids
            metricsPath).1 = some r.rate) := by
  refine ⟨rfl, rfl, ?_⟩
  intro hne
  have hne' : iids.isEmpty = false := by
    simpa [List.isEmpty_iff] using hne
  unfold score_candidate_detailed
  rw [hne']
  exact ⟨_, rfl, rfl⟩

/-- C10 witness: a singleton task list yields a `ScoreResult` whose
`rate` field is readable; the empty list yields the bare float. -/
theorem score_candidate_detailed_return_shape_witness :
    ((["t1"] : List String) ≠ []) ∧
    (∃ r : ScoreResult,
        (score_candidate_detailed "gpt" (fun _ => ⟨"", 0, 0, 0, 0⟩)
            (fun _ _ => false) emptyLogs ["t1"] "metrics.jsonl").1
          = ScoreReturn.result r ∧
        getRate (score_candidate_detailed "gpt" (fun _ => ⟨"", 0, 0, 0, 0⟩)
            (fun _ _ => false) emptyLogs ["t1"] "metrics.jsonl").1 = some r.rate) :=
  ⟨by decide,
    (score_candidate_detailed_return_shape "gpt" (fun _ => ⟨"", 0, 0, 0, 0⟩)
        (fun _ _ => false) emptyLogs ["t1"] "metrics.jsonl").2.2 (by decide)⟩

/-- C6: on the wall-clock timeout path of
`generate_patch_with_mini_swebench`, whatever the child-process state
after `terminate` and whatever the probe finds, the container git-diff
probe (`_extract_diff_from_containers`) occurs exactly once, strictly
before the single `_stop_orphan_containers` call; the probe therefore
never executes after the container stop. -/
theorem timeout_probe_before_stop (stillAlive probeUsable : Bool) :
    (timeoutPathEvents stillAlive probeUsable).indexOf RunEvent.probeContainers <
      (timeoutPathEvents stillAlive probeUsable).indexOf RunEvent.stopContainers ∧
    (timeoutPathEvents stillAlive probeUsable).count RunEvent.probeContainers = 1 ∧
    (timeoutPathEvents stillAlive probeUsable).count RunEvent.stopContainers = 1 ∧
    RunEvent.terminateChild ∈ timeoutPathEvents stillAlive probeUsable := by
  cases stillAlive <;> cases probeUsable <;> decide

/-- C7: with guidance text present (non-empty), `build_task_with_context`
returns exactly the sentinel line, a newline, the guidance text, a
newline, the closing sentinel, one blank line, then the problem
statement; with no guidance text it returns the problem unchanged. -/
theorem build_task_with_context_spec (p c : String) (hc : c ≠ "") :
    build_task_with_context p (some c)
        = "# REPO GUIDANCE (AUTO-TUNED)\n" ++ c ++ ("\n# END REPO GUIDANCE\n\n" ++ p) ∧
    build_task_with_context p none = p := by
  constructor
  · simp only [build_task_with_context, if_neg hc, CONTEXT_BLOCK_START,
      CONTEXT_BLOCK_END, String.append_assoc]
    rfl
  · rfl

/-- C7 witness: concrete guidance and problem texts. -/
theorem build_task_with_context_spec_witness :
    ("- use pytest" ≠ "") ∧
    (build_task_with_context "fix the bug" (some "- use pytest")
        = "# REPO GUIDANCE (AUTO-TUNED)\n" ++ "- use pytest"
            ++ ("\n# END REPO GUIDANCE\n\n" ++ "fix the bug") ∧
      build_task_with_context "fix the bug" none = "fix the bug") :=
  ⟨by decide, build_task_with_context_spec "fix the bug" "- use pytest" (by decide)⟩

/-- C8: the default evaluator returns `false` for every empty or
whitespace-only patch without invoking the harness; for a non-empty
patch it invokes the harness, and a raised harness exception yields
`false`; a `true` verdict requires both a non-empty patch and a
successful harness run returning `true`, so a non-empty patch alone is
never sufficient for a pass. -/
theorem default_eval_spec (patch : String) (harness : Except String Bool) :
    (patch.trim = "" → default_eval patch harness = (false, false)) ∧
    (patch.trim ≠ "" → (default_eval patch harness).2 = true) ∧
    (∀ msg, harness = Except.error msg → (default_eval patch harness).1 = false) ∧
    ((default_eval patch harness).1 = true →
      harness = Except.ok true ∧ patch.trim ≠ "") := by
  refine ⟨?_, ?_, ?_, ?_⟩
  · intro h
    simp [default_eval, h]
  · intro h
    cases harness <;> simp [default_eval, h]
  · intro msg hmsg
    subst hmsg
    by_cases h : patch.trim = "" <;> simp [default_eval, h]
  · intro htrue
    by_cases h : patch.trim = ""
    · simp [default_eval, h] at htrue
    · cases harness with
      | error e => simp [default_eval, h] at htrue
      | ok b =>
        simp [default_eval, h] at htrue
        subst htrue
        exact ⟨rfl, h⟩

/-- C8 witness: a non-empty patch whose harness invocation raises is
counted as a failure. -/
theorem default_eval_spec_witness :
    (default_eval "diff --git a b" (Except.error "harness crashed")).1 = false :=
  (default_eval_spec "diff --git a b" (Except.error "harness crashed")).2.2.1
    "harness crashed" rfl

/-- C9: when both evaluation conditions record a rate, the experiment
summary's `delta.absolute` is exactly the tuned condition's rate minus
the no-guidance condition's rate, where each recorded rate is
`compute_rate(resolved, total)`; when either condition lacks a rate,
no delta is emitted.  The last conjunct instantiates the spec's S6
scenario: `14/20` tuned versus `10/20` untuned gives `delta = 0.20`. -/
theorem run_experiment_delta_spec (r1 t1 r2 t2 : Nat) (x : Option CondEval) :
    summary_delta (some (mkCondEval r1 t1)) (some (mkCondEval r2 t2))
        = some (compute_rate r2 t2 - compute_rate r1 t1,
            compute_rate r1 t1, compute_rate r2 t2) ∧
    summary_delta none x = none ∧
    summary_delta x none = none ∧
    compute_rate 14 20 - compute_rate 10 20 = 1 / 5 := by
  refine ⟨rfl, rfl, ?_, ?_⟩
  · cases x <;> rfl
  · norm_num [compute_rate]

end ContextTune
